import Mathlib

/-!
Shallow embedding of the xk6-output-influxdb metrics sink
(pkg/influxdb/config.go and pkg/influxdb/output.go) for checking its
natural-language specification.  Go maps are modelled as association
lists, Go's `null.String`/`null.Int`/`null.Bool` and k6's `NullDuration`
as value/valid pairs, float64 sample values as exact rationals (no
arithmetic is performed on them), and durations as nanosecond integers.
-/

namespace XK6

/-! ## Association-list model of Go maps -/

/-- Lookup of a key in an association list (Go map read `m[k]`). -/
def lookupA {κ α : Type} [DecidableEq κ] (k : κ) : List (κ × α) → Option α
  | [] => none
  | (k', v) :: rest => if k = k' then some v else lookupA k rest

/-- Removal of a key (Go `delete(m, k)`). -/
def eraseA {κ α : Type} [DecidableEq κ] (k : κ) (l : List (κ × α)) : List (κ × α) :=
  l.filter (fun p => p.1 ≠ k)

/-- Insertion / overwrite of a binding (Go map write `m[k] = v`). -/
def insertA {κ α : Type} [DecidableEq κ] (k : κ) (v : α) (l : List (κ × α)) : List (κ × α) :=
  (k, v) :: eraseA k l

/-! ## Small string helpers used by the Go standard-library models -/

/-- Split a character list at the first occurrence of `c`; `none` when `c`
does not occur.  Used to model `strings.SplitN(s, sep, 2)` for a
one-character separator. -/
def splitFirst (c : Char) : List Char → Option (List Char × List Char)
  | [] => none
  | a :: as =>
    if a = c then some ([], as)
    else match splitFirst c as with
      | none => none
      | some (x, y) => some (a :: x, y)

/-- Does `needle` occur at the start of `hay`? -/
def leadsWith : List Char → List Char → Bool
  | _, [] => true
  | [], _ :: _ => false
  | a :: as, b :: bs => a = b && leadsWith as bs

/-- Does `needle` occur anywhere inside `hay`? -/
def hasSub (hay needle : List Char) : Bool :=
  match hay with
  | [] => needle.isEmpty
  | _ :: rest => leadsWith hay needle || hasSub rest needle

/-- `strMentions s pat`: the string `s` contains `pat` as a substring
(the sense in which an error message "mentions" a word). -/
def strMentions (s pat : String) : Bool :=
  hasSub s.data pat.data

/-- Value of a decimal digit character. -/
def digitVal (c : Char) : Option Nat :=
  if '0' ≤ c ∧ c ≤ '9' then some (c.toNat - 48) else none

/-- Accumulating decimal reader; fails on any non-digit. -/
def decNatAux (acc : Nat) : List Char → Option Nat
  | [] => some acc
  | c :: cs =>
    match digitVal c with
    | some d => decNatAux (acc * 10 + d) cs
    | none => none

/-- A non-empty all-digit character list read as a natural number. -/
def decNat : List Char → Option Nat
  | [] => none
  | l => decNatAux 0 l

/-! ## Models of the Go standard-library parsers used by the sink

These model external collaborators (`strconv`, `time`, `net/url`), not
code of this repository; each is faithful on the fragment the sink's
inputs exercise, as noted in its doc comment. -/

/-- Model of `strconv.ParseBool`: exactly the twelve textual booleans Go
accepts. -/
def goParseBool (s : String) : Option Bool :=
  match s with
  | "1" | "t" | "T" | "true" | "TRUE" | "True" => some true
  | "0" | "f" | "F" | "false" | "FALSE" | "False" => some false
  | _ => none

/-- Model of `strconv.ParseInt(s, 10, 64)`: optional sign, non-empty
decimal digits, signed 64-bit range check.  (Go's out-of-range result
carries a non-nil error, which is all the caller inspects.) -/
def goParseInt64 (s : String) : Option Int :=
  let (sign, rest) : Int × List Char :=
    match s.data with
    | '+' :: r => (1, r)
    | '-' :: r => (-1, r)
    | r => (1, r)
  match decNat rest with
  | none => none
  | some n =>
    let v : Int := sign * (n : Int)
    if -(2 ^ 63) ≤ v ∧ v ≤ 2 ^ 63 - 1 then some v else none

/-- Exponent part of a float literal: optional sign then digits. -/
def decExp (l : List Char) : Option Int :=
  match l with
  | '+' :: r => (decNat r).map fun n => (n : Int)
  | '-' :: r => (decNat r).map fun n => -(n : Int)
  | r => (decNat r).map fun n => (n : Int)

/-- Mantissa of a float literal: digits with at most one dot, at least
one digit overall.  Returns the exact rational value. -/
def decMantissa (l : List Char) : Option ℚ :=
  match splitFirst '.' l with
  | none => (decNat l).map fun n => (n : ℚ)
  | some (ip, fp) =>
    match ip, fp with
    | [], [] => none
    | _, _ =>
      match decNatAux 0 ip, decNatAux 0 fp with
      | some i, some f =>
        if ip = [] ∧ fp = [] then none
        else some ((i : ℚ) + (f : ℚ) / ((10 : ℚ) ^ fp.length))
      | _, _ => none

/-- Model of `strconv.ParseFloat(s, 64)` on ordinary decimal literals
(optional sign, digits with optional dot, optional `e`/`E` exponent).
The value is kept as the exact decimal rational; rounding to binary64
is abstracted away, and the `inf`/`NaN`/hex-float forms are not
modelled.  The sink only ever branches on success vs failure and stores
the resulting value opaquely. -/
def goParseFloat (s : String) : Option ℚ :=
  let (sign, rest) : ℚ × List Char :=
    match s.data with
    | '+' :: r => (1, r)
    | '-' :: r => (-1, r)
    | r => (1, r)
  let (mant, expPart) : List Char × Option (List Char) :=
    match splitFirst 'e' rest with
    | some (m, e) => (m, some e)
    | none =>
      match splitFirst 'E' rest with
      | some (m, e) => (m, some e)
      | none => (rest, none)
  match decMantissa mant with
  | none => none
  | some m =>
    match expPart with
    | none => some (sign * m)
    | some ec =>
      match decExp ec with
      | none => none
      | some e => some (sign * m * (10 : ℚ) ^ e)

/-- Nanoseconds per unit suffix of a Go duration literal; returns the
multiplier and the remaining characters.  `"ms"`/`"ns"`/`"us"` are
matched before the single-letter units, as Go does. -/
def durUnit : List Char → Option (Int × List Char)
  | 'n' :: 's' :: r => some (1, r)
  | 'u' :: 's' :: r => some (1000, r)
  | 'µ' :: 's' :: r => some (1000, r)
  | 'μ' :: 's' :: r => some (1000, r)
  | 'm' :: 's' :: r => some (1000000, r)
  | 'm' :: r => some (60000000000, r)
  | 's' :: r => some (1000000000, r)
  | 'h' :: r => some (3600000000000, r)
  | _ => none

/-- One or more `digits ++ unit` components, fuelled by the input length
(each component consumes at least one character, so the fuel never runs
out on real inputs). -/
def durComponents : Nat → List Char → Option Int
  | _, [] => none
  | 0, _ :: _ => none
  | fuel + 1, l =>
    let digits := l.takeWhile fun c => decide ('0' ≤ c ∧ c ≤ '9')
    let rest := l.dropWhile fun c => decide ('0' ≤ c ∧ c ≤ '9')
    match decNat digits with
    | none => none
    | some n =>
      match durUnit rest with
      | none => none
      | some (mult, r) =>
        match r with
        | [] => some ((n : Int) * mult)
        | _ :: _ => (durComponents fuel r).map fun d => (n : Int) * mult + d

/-- Model of `time.ParseDuration` on integer-component literals:
optional sign, then one or more `digits ++ unit` groups, plus the
special form `"0"`.  Fractional components (`"1.5s"`) are not modelled;
no configuration the sink reads uses them.  Result in nanoseconds. -/
def goParseDuration (s : String) : Option Int :=
  let (sign, rest) : Int × List Char :=
    match s.data with
    | '+' :: r => (1, r)
    | '-' :: r => (-1, r)
    | r => (1, r)
  if rest = ['0'] then some 0
  else (durComponents rest.length rest).map fun d => sign * d

/-- Comma splitter, accumulating the current segment reversed. -/
def splitCommaAux (cur : List Char) : List Char → List String
  | [] => [String.mk cur.reverse]
  | c :: cs =>
    if c = ',' then String.mk cur.reverse :: splitCommaAux [] cs
    else splitCommaAux (c :: cur) cs

/-- Model of `strings.Split(s, ",")` (how envconfig reads a `[]string`
field): the comma-separated segments; the empty string yields `[""]`. -/
def goSplitComma (s : String) : List String :=
  splitCommaAux [] s.data

/-! ## The nullable option types (gopkg.in/guregu/null.v3, k6 types) -/

/-- Model of `null.String`: a value plus a validity flag. -/
structure NullString where
  string : String
  valid : Bool
deriving DecidableEq, Repr

/-- Model of `null.Bool`. -/
structure NullBool where
  bool : Bool
  valid : Bool
deriving DecidableEq, Repr

/-- Model of `null.Int` (the value is Go's `int64`). -/
structure NullInt where
  int64 : Int
  valid : Bool
deriving DecidableEq, Repr

/-- Model of k6's `types.NullDuration` (nanoseconds). -/
structure NullDuration where
  duration : Int
  valid : Bool
deriving DecidableEq, Repr

/-! ## Config (pkg/influxdb/config.go) -/

/-- The output's configuration (config.go lines 15-27). -/
structure Config where
  Addr : NullString
  Organization : NullString
  Bucket : NullString
  Token : NullString
  InsecureSkipTLSVerify : NullBool
  PushInterval : NullDuration
  ConcurrentWrites : NullInt
  Precision : NullDuration
  TagsAsFields : List String
  EnableUniqueTag : NullBool
  UniqueTagName : NullString
deriving DecidableEq, Repr

/-- The Go zero value `Config{}`: every field invalid, empty slice. -/
def emptyConfig : Config where
  Addr := ⟨"", false⟩
  Organization := ⟨"", false⟩
  Bucket := ⟨"", false⟩
  Token := ⟨"", false⟩
  InsecureSkipTLSVerify := ⟨false, false⟩
  PushInterval := ⟨0, false⟩
  ConcurrentWrites := ⟨0, false⟩
  Precision := ⟨0, false⟩
  TagsAsFields := []
  EnableUniqueTag := ⟨false, false⟩
  UniqueTagName := ⟨"", false⟩

/-- `NewConfig` (config.go lines 30-40): the built-in defaults.  All the
scalar defaults are created invalid (`null.NewString(v, false)` etc.),
so later layers may override them, but their values are in force when
nothing does. -/
def NewConfig : Config :=
  { emptyConfig with
    Addr := ⟨"http://localhost:8086", false⟩
    TagsAsFields := ["vu:int", "iter:int", "url"]
    ConcurrentWrites := ⟨4, false⟩
    PushInterval := ⟨1000000000, false⟩
    EnableUniqueTag := ⟨false, false⟩
    UniqueTagName := ⟨"uniqueId", false⟩ }

/-- `Config.Apply` (config.go lines 43-78): overlay `cfg` on `c`; each
valid field of `cfg` replaces `c`'s value, `TagsAsFields` replaces when
non-empty. -/
def Config.Apply (c cfg : Config) : Config :=
  let c := if cfg.Addr.valid then { c with Addr := cfg.Addr } else c
  let c := if cfg.Organization.valid then { c with Organization := cfg.Organization } else c
  let c := if cfg.Bucket.valid then { c with Bucket := cfg.Bucket } else c
  let c := if cfg.Token.valid then { c with Token := cfg.Token } else c
  let c := if cfg.InsecureSkipTLSVerify.valid then
    { c with InsecureSkipTLSVerify := cfg.InsecureSkipTLSVerify } else c
  let c := if cfg.TagsAsFields.length > 0 then { c with TagsAsFields := cfg.TagsAsFields } else c
  let c := if cfg.PushInterval.valid then { c with PushInterval := cfg.PushInterval } else c
  let c := if cfg.ConcurrentWrites.valid then { c with ConcurrentWrites := cfg.ConcurrentWrites } else c
  let c := if cfg.Precision.valid then { c with Precision := cfg.Precision } else c
  let c := if cfg.EnableUniqueTag.valid then { c with EnableUniqueTag := cfg.EnableUniqueTag } else c
  let c := if cfg.UniqueTagName.valid then { c with UniqueTagName := cfg.UniqueTagName } else c
  c

/-! ## URL parsing (config.go parseURL, over a model of net/url.Parse) -/

/-- The parts of a parsed URL that `parseURL` reads. -/
structure GoURL where
  scheme : String
  host : String
  path : String
deriving DecidableEq, Repr

/-- Is `l` a valid URI scheme: a letter followed by letters, digits,
`+`, `-`, `.`? -/
def validScheme : List Char → Bool
  | [] => false
  | c :: rest =>
    c.isAlpha && rest.all fun d => d.isAlpha || d.isDigit || d = '+' || d = '-' || d = '.'

/-- Model of `net/url.Parse` on the fragment the sink accepts: either
`scheme://host/path` or a bare path.  Query, fragment and userinfo
components are not modelled (no sink input carries them); a
`scheme:opaque` form yields empty host and path, as in Go. -/
def goURLParse (s : String) : GoURL :=
  match splitFirst ':' s.data with
  | some (pre, post) =>
    if validScheme pre then
      match post with
      | '/' :: '/' :: after =>
        let hostC := after.takeWhile fun c => c ≠ '/'
        let pathC := after.dropWhile fun c => c ≠ '/'
        { scheme := ⟨pre⟩, host := ⟨hostC⟩, path := ⟨pathC⟩ }
      | _ => { scheme := ⟨pre⟩, host := "", path := "" }
    else { scheme := "", host := "", path := s }
  | none => { scheme := "", host := "", path := s }

/-- `strings.TrimPrefix(path, "/")`: drop one leading slash if present. -/
def trimLeadSlash (s : String) : String :=
  match s.data with
  | '/' :: r => ⟨r⟩
  | _ => s

/-- `parseURL` (config.go lines 88-101): host (when present) becomes
`addr = scheme://host`; a non-empty path minus its leading slash becomes
`bucket`. -/
def parseURL (text : String) : Except String Config :=
  let u := goURLParse text
  let c := emptyConfig
  let c := if u.host ≠ "" then { c with Addr := ⟨u.scheme ++ "://" ++ u.host, true⟩ } else c
  let bucket := trimLeadSlash u.path
  let c := if bucket ≠ "" then { c with Bucket := ⟨bucket, true⟩ } else c
  Except.ok c

/-! ## Environment overlay (mstoykov/envconfig over the supplied map) -/

/-- Model of `envconfig.Process` with the lookup callback the sink
passes (config.go lines 117-123): each tagged field is read from the
lookup function and parsed to its type; the first parse failure aborts.
Absent keys leave the zero value. -/
def envconfigProcess (lookup : String → Option String) : Except String Config := do
  let str (key : String) : NullString :=
    match lookup key with
    | some v => ⟨v, true⟩
    | none => ⟨"", false⟩
  let bool (key : String) : Except String NullBool :=
    match lookup key with
    | some v =>
      match goParseBool v with
      | some b => .ok ⟨b, true⟩
      | none => .error ("envconfig.Process: assigning " ++ key)
    | none => .ok ⟨false, false⟩
  let int (key : String) : Except String NullInt :=
    match lookup key with
    | some v =>
      match goParseInt64 v with
      | some n => .ok ⟨n, true⟩
      | none => .error ("envconfig.Process: assigning " ++ key)
    | none => .ok ⟨0, false⟩
  let dur (key : String) : Except String NullDuration :=
    match lookup key with
    | some v =>
      match goParseDuration v with
      | some d => .ok ⟨d, true⟩
      | none => .error ("envconfig.Process: assigning " ++ key)
    | none => .ok ⟨0, false⟩
  let strs (key : String) : List String :=
    match lookup key with
    | some v => goSplitComma v
    | none => []
  let insecure ← bool "K6_INFLUXDB_INSECURE"
  let pushInterval ← dur "K6_INFLUXDB_PUSH_INTERVAL"
  let concurrentWrites ← int "K6_INFLUXDB_CONCURRENT_WRITES"
  let precision ← dur "K6_INFLUXDB_PRECISION"
  let enableUniqueTag ← bool "K6_INFLUXDB_ENABLE_UNIQUE_TAG"
  return { Addr := str "K6_INFLUXDB_ADDR"
           Organization := str "K6_INFLUXDB_ORGANIZATION"
           Bucket := str "K6_INFLUXDB_BUCKET"
           Token := str "K6_INFLUXDB_TOKEN"
           InsecureSkipTLSVerify := insecure
           PushInterval := pushInterval
           ConcurrentWrites := concurrentWrites
           Precision := precision
           TagsAsFields := strs "K6_INFLUXDB_TAGS_AS_FIELDS"
           EnableUniqueTag := enableUniqueTag
           UniqueTagName := str "K6_INFLUXDB_UNIQUE_TAG_NAME" }

/-! ## Consolidation (config.go GetConsolidatedConfig) -/

/-- `GetConsolidatedConfig` (config.go lines 105-135).  The structured
JSON document is modelled as the already-parsed `Config` it unmarshals
to (`parseJSON`, config.go lines 81-85, is Go-standard-library JSON
decoding of exactly these fields).  `procEnv` makes the ambient process
environment an explicit argument so that dependence on it is checkable;
the source's envconfig callback (config.go lines 118-121) reads only
the supplied `env` map, so `procEnv` is never consulted. -/
def GetConsolidatedConfig (procEnv : String → Option String) (jsonConf : Option Config)
    (env : String → Option String) (url : String) : Except String Config :=
  let result := NewConfig
  let result :=
    match jsonConf with
    | some jc => result.Apply jc
    | none => result
  match envconfigProcess (fun key => env key) with
  | .error e => .error e
  | .ok envConf =>
    let result := result.Apply envConf
    if url = "" then .ok result
    else
      match parseURL url with
      | .error e => .error e
      | .ok urlConf => .ok (result.Apply urlConf)

/-- The legacy variant (src/unnamed/part_000, lines 113-140): identical
except that `envconfig.Process` reads the *process* environment, not
the supplied map. -/
def legacyGetConsolidatedConfig (procEnv : String → Option String) (jsonConf : Option Config)
    (env : String → Option String) (url : String) : Except String Config :=
  let result :=
    { emptyConfig with
      Addr := ⟨"http://localhost:8086", false⟩
      TagsAsFields := ["vu", "iter", "url"]
      ConcurrentWrites := ⟨4, false⟩
      PushInterval := ⟨1000000000, false⟩ }
  let result :=
    match jsonConf with
    | some jc => result.Apply jc
    | none => result
  match envconfigProcess (fun key => procEnv key) with
  | .error e => .error e
  | .ok envConf =>
    let result := result.Apply envConf
    if url = "" then .ok result
    else
      match parseURL url with
      | .error e => .error e
      | .ok urlConf => .ok (result.Apply urlConf)

/-! ## Field kinds (pkg/influxdb/output.go) -/

/-- `FieldKind` (output.go lines 27-34): target scalar kind for a
promoted tag. -/
inductive FieldKind where
  | String
  | Int
  | Float
  | Bool
deriving DecidableEq, Repr

/-- The name and type components of one tags-as-fields directive:
`strings.SplitN(tag, ":", 2)` with a missing kind defaulting to
`"string"` (output.go lines 222-228). -/
def entryNameKind (s : String) : String × String :=
  match splitFirst ':' s.data with
  | none => (s, "string")
  | some (a, b) => (⟨a⟩, ⟨b⟩)

/-- The kind a directive's type component denotes, `none` for an
unrecognized one; mirrors the switch of output.go lines 235-247. -/
def kindOfString : String → Option FieldKind
  | "string" => some .String
  | "bool" => some .Bool
  | "float" => some .Float
  | "int" => some .Int
  | _ => none

/-- `checkDuplicatedTypeDefinitions` (output.go lines 253-258). -/
def checkDuplicatedTypeDefinitions (fieldKinds : List (String × FieldKind)) (tag : String) :
    Except String Unit :=
  if (lookupA tag fieldKinds).isSome then
    .error ("a tag name (" ++ tag ++ ") shows up more than once in InfluxDB field type configurations")
  else .ok ()

/-- The loop body accumulation of `makeFieldKinds`. -/
def makeFieldKindsAux (fieldKinds : List (String × FieldKind)) :
    List String → Except String (List (String × FieldKind))
  | [] => .ok fieldKinds
  | tag :: rest =>
    let (fieldName, fieldType) := entryNameKind tag
    match checkDuplicatedTypeDefinitions fieldKinds fieldName with
    | .error e => .error e
    | .ok () =>
      match kindOfString fieldType with
      | some k => makeFieldKindsAux (fieldKinds ++ [(fieldName, k)]) rest
      | none =>
        .error ("an invalid type (" ++ fieldType ++ ") is specified for an InfluxDB field ("
          ++ fieldName ++ ")")

/-- `makeFieldKinds` (output.go lines 219-251): parse the
tags-as-fields directives into the name → kind table, rejecting
duplicate names and unknown kinds.  (The Go function receives the whole
`Config` and reads only `conf.TagsAsFields`; the directive list is the
argument here.) -/
def makeFieldKinds (tagsAsFields : List String) : Except String (List (String × FieldKind)) :=
  makeFieldKindsAux [] tagsAsFields

/-! ## Tag-to-field promotion (output.go extractTagsToValues) -/

/-- A value stored in a point's fields map (Go `interface\x7b\x7d`):
the raw string, or the parsed boolean / int64 / float64. -/
inductive FieldValue where
  | str (v : String)
  | boolean (v : Bool)
  | int64 (v : Int)
  | float64 (v : ℚ)
deriving DecidableEq, Repr

/-- The value `extractTagsToValues` computes for one tag: the parse of
`val` at `kind` (`none` models Go's non-nil `err`). -/
def parseAsKind (kind : FieldKind) (val : String) : Option FieldValue :=
  match kind with
  | .String => some (.str val)
  | .Bool => (goParseBool val).map FieldValue.boolean
  | .Float => (goParseFloat val).map FieldValue.float64
  | .Int => (goParseInt64 val).map FieldValue.int64

/-- `extractTagsToValues` (output.go lines 119-143): for each entry of
the field-kind table present in `tags`, parse the tag's value to the
declared kind (falling back to the raw string when parsing fails),
store it in `values` under the same name, and delete the key from
`tags`.  Returns the updated `(tags, values)` pair (Go mutates `tags`
in place and returns `values`). -/
def extractTagsToValues (fieldKinds : List (String × FieldKind))
    (tags : List (String × String)) (values : List (String × FieldValue)) :
    List (String × String) × List (String × FieldValue) :=
  match fieldKinds with
  | [] => (tags, values)
  | (tag, kind) :: rest =>
    match lookupA tag tags with
    | none => extractTagsToValues rest tags values
    | some val =>
      let v := (parseAsKind kind val).getD (.str val)
      extractTagsToValues rest (eraseA tag tags) (insertA tag v values)

/-! ## Point building (output.go batchFromSamples) -/

/-- A metric sample (k6 `stats.Sample`): the float64 value is modelled
as an exact rational, and `tagsId` models the identity of the
`*stats.SampleTags` pointer used as the cache key (`tags` is the
content `CloneTags` copies). -/
structure Sample where
  metricName : String
  time : Int
  value : ℚ
  tagsId : Nat
  tags : List (String × String)
deriving DecidableEq, Repr

/-- A line-protocol point (`write.Point` as built by
`influxdbclient.NewPoint`). -/
structure Point where
  measurement : String
  tags : List (String × String)
  fields : List (String × FieldValue)
  timestamp : Int
deriving DecidableEq, Repr

/-- The cache of `batchFromSamples`: tag-set identity → (tags with
promoted keys removed, shared values map). -/
def BatchCache : Type := List (Nat × (List (String × String) × List (String × FieldValue)))

/-- The inner sample loop of `batchFromSamples` (output.go lines
155-176), threading the cache.  On a cache miss the freshly built
values map is stored in the cache *before* `values["value"]` is
assigned; Go maps are references, so the cached entry contains that
first sample's `"value"` binding too — modelled by caching the map
after the insertion.  On a hit the cached values are copied and the
`"value"` binding is overwritten with the current sample's value. -/
def bfsSamples (fieldKinds : List (String × FieldKind)) (cache : BatchCache) :
    List Sample → BatchCache × List Point
  | [] => (cache, [])
  | sample :: rest =>
    match lookupA sample.tagsId cache with
    | some (ctags, cvalues) =>
      let values := insertA "value" (.float64 sample.value) cvalues
      let p : Point := ⟨sample.metricName, ctags, values, sample.time⟩
      let r := bfsSamples fieldKinds cache rest
      (r.1, p :: r.2)
    | none =>
      let tags := (extractTagsToValues fieldKinds sample.tags []).1
      let extracted := (extractTagsToValues fieldKinds sample.tags []).2
      let values := insertA "value" (.float64 sample.value) extracted
      let p : Point := ⟨sample.metricName, tags, values, sample.time⟩
      let cache1 := insertA sample.tagsId (tags, values) cache
      let r := bfsSamples fieldKinds cache1 rest
      (r.1, p :: r.2)

/-- The outer container loop of `batchFromSamples` (output.go lines
153-177). -/
def bfsContainers (fieldKinds : List (String × FieldKind)) (cache : BatchCache) :
    List (List Sample) → BatchCache × List Point
  | [] => (cache, [])
  | container :: rest =>
    let r1 := bfsSamples fieldKinds cache container
    let r2 := bfsContainers fieldKinds r1.1 rest
    (r2.1, r1.2 ++ r2.2)

/-- `batchFromSamples` (output.go lines 145-180): all containers'
samples turned into points, in arrival order, with a per-call
identity-keyed cache. -/
def batchFromSamples (fieldKinds : List (String × FieldKind))
    (containers : List (List Sample)) : List Point :=
  (bfsContainers fieldKinds [] containers).2

/-! ## Constructor validation (output.go New) -/

/-- `New` (output.go lines 55-90) up to its configuration-dependent
behaviour: consolidate the config, require a non-empty bucket, require
positive `ConcurrentWrites`, then build the field-kind table.  TSDB
client construction is external I/O and carries no further
config-dependent failure. -/
def NewValidated (procEnv : String → Option String) (jsonConf : Option Config)
    (env : String → Option String) (url : String) :
    Except String (Config × List (String × FieldKind)) :=
  match GetConsolidatedConfig procEnv jsonConf env url with
  | .error e => .error e
  | .ok conf =>
    if conf.Bucket.string = "" then .error "the Bucket option is required"
    else if conf.ConcurrentWrites.int64 ≤ 0 then
      .error "the ConcurrentWrites option must be a positive number"
    else
      match makeFieldKinds conf.TagsAsFields with
      | .error e => .error e
      | .ok fldKinds => .ok (conf, fldKinds)

/-! ## Stop (output.go Stop): the order of its effects -/

/-- The externally visible effects of `Output.Stop`. -/
inductive StopEvent where
  | flusherStop
  | clientClose
  | wgWait
deriving DecidableEq, Repr

/-- The sequence of effects `Stop` performs before returning
(output.go lines 110-117): stop the periodic flusher (running its
terminal flush), close the TSDB client, wait on the writer wait
group. -/
def stopEvents : List StopEvent :=
  [StopEvent.flusherStop, StopEvent.clientClose, StopEvent.wgWait]

/-- Position of an effect in `stopEvents` (its execution order). -/
def stopIdx (e : StopEvent) : Nat :=
  stopEvents.indexOf e

/-! ## Dispatcher concurrency skeleton (output.go flushMetrics) -/

/-- Synchronization state of the dispatcher: permits currently held on
`semaphoreCh` (capacity `ConcurrentWrites`), writer goroutines spawned
but not yet running their body, and writers executing. -/
structure DState where
  held : Nat
  pending : Nat
  running : Nat
deriving DecidableEq, Repr

/-- Steps of the dispatcher, from output.go lines 182-215: a flush tick
with buffered samples acquires a permit on the tick's own thread — only
possible while fewer than `N` permits are held — and then spawns a
writer (`o.semaphoreCh <- struct\x7b\x7d\x7b\x7d` before `go func()`);
a spawned writer starts running; a finished writer releases its permit
exactly once (the deferred `<-o.semaphoreCh`). -/
inductive DStep (N : Nat) : DState → DState → Prop
  | flushTick (s : DState) (h : s.held < N) :
      DStep N s ⟨s.held + 1, s.pending + 1, s.running⟩
  | writerStart (s : DState) (h : 0 < s.pending) :
      DStep N s ⟨s.held, s.pending - 1, s.running + 1⟩
  | writerFinish (s : DState) (h : 0 < s.running) :
      DStep N s ⟨s.held - 1, s.pending, s.running - 1⟩

/-- States the dispatcher can reach from idle. -/
inductive DReachable (N : Nat) : DState → Prop
  | init : DReachable N ⟨0, 0, 0⟩
  | step {s t : DState} : DReachable N s → DStep N s t → DReachable N t

/-! ## Association-list lemmas -/

lemma lookupA_insert_self {α : Type} (k : String) (v : α) (l : List (String × α)) :
    lookupA k (insertA k v l) = some v := by
  simp [insertA, lookupA]

lemma lookupA_insert_ne {α : Type} {k k' : String} (h : k ≠ k') (v : α)
    (l : List (String × α)) : lookupA k (insertA k' v l) = lookupA k l := by
  simp only [insertA, lookupA, if_neg h, eraseA]
  induction l with
  | nil => rfl
  | cons p rest ih =>
    by_cases hp : p.1 = k'
    · simp only [List.filter]
      rw [show (decide (p.1 ≠ k')) = false by simp [hp]]
      rw [ih]
      obtain ⟨a, b⟩ := p
      simp only [lookupA]
      rw [if_neg (by simp_all)]
    · simp only [List.filter]
      rw [show (decide (p.1 ≠ k')) = true by simp [hp]]
      obtain ⟨a, b⟩ := p
      simp only [lookupA, ih]

lemma lookupA_erase_self {α : Type} (k : String) (l : List (String × α)) :
    lookupA k (eraseA k l) = none := by
  induction l with
  | nil => rfl
  | cons p rest ih =>
    obtain ⟨a, b⟩ := p
    by_cases hp : a = k
    · simpa [eraseA, List.filter, hp] using ih
    · simp only [eraseA, List.filter] at ih ⊢
      rw [show (decide (a ≠ k)) = true by simp [hp]]
      simp only [lookupA, if_neg (Ne.symm hp)]
      exact ih

lemma lookupA_erase_ne {α : Type} {k k' : String} (h : k ≠ k') (l : List (String × α)) :
    lookupA k (eraseA k' l) = lookupA k l := by
  induction l with
  | nil => rfl
  | cons p rest ih =>
    obtain ⟨a, b⟩ := p
    by_cases hp : a = k'
    · simp only [eraseA, List.filter] at ih ⊢
      rw [show (decide (a ≠ k')) = false by simp [hp]]
      rw [ih, lookupA, if_neg (by rw [hp]; exact h)]
    · simp only [eraseA, List.filter] at ih ⊢
      rw [show (decide (a ≠ k')) = true by simp [hp]]
      simp only [lookupA, ih]

lemma lookupA_append {α : Type} (k : String) (a b : List (String × α)) :
    lookupA k (a ++ b) =
      match lookupA k a with
      | some v => some v
      | none => lookupA k b := by
  induction a with
  | nil => simp [lookupA]
  | cons p rest ih =>
    obtain ⟨x, y⟩ := p
    by_cases hx : k = x
    · simp [lookupA, hx]
    · simp only [List.cons_append, lookupA, if_neg hx]
      exact ih

/-! ## Field-by-field description of Config.Apply -/

lemma Apply_Addr (c cfg : Config) :
    (c.Apply cfg).Addr = if cfg.Addr.valid then cfg.Addr else c.Addr := by
  simp [Config.Apply, apply_ite Config.Addr]

lemma Apply_Organization (c cfg : Config) :
    (c.Apply cfg).Organization =
      if cfg.Organization.valid then cfg.Organization else c.Organization := by
  simp [Config.Apply, apply_ite Config.Organization]

lemma Apply_Bucket (c cfg : Config) :
    (c.Apply cfg).Bucket = if cfg.Bucket.valid then cfg.Bucket else c.Bucket := by
  simp [Config.Apply, apply_ite Config.Bucket]

lemma Apply_Token (c cfg : Config) :
    (c.Apply cfg).Token = if cfg.Token.valid then cfg.Token else c.Token := by
  simp [Config.Apply, apply_ite Config.Token]

lemma Apply_Insecure (c cfg : Config) :
    (c.Apply cfg).InsecureSkipTLSVerify =
      if cfg.InsecureSkipTLSVerify.valid
        then cfg.InsecureSkipTLSVerify else c.InsecureSkipTLSVerify := by
  simp [Config.Apply, apply_ite Config.InsecureSkipTLSVerify]

lemma Apply_PushInterval (c cfg : Config) :
    (c.Apply cfg).PushInterval =
      if cfg.PushInterval.valid then cfg.PushInterval else c.PushInterval := by
  simp [Config.Apply, apply_ite Config.PushInterval]

lemma Apply_ConcurrentWrites (c cfg : Config) :
    (c.Apply cfg).ConcurrentWrites =
      if cfg.ConcurrentWrites.valid then cfg.ConcurrentWrites else c.ConcurrentWrites := by
  simp [Config.Apply, apply_ite Config.ConcurrentWrites]

lemma Apply_Precision (c cfg : Config) :
    (c.Apply cfg).Precision = if cfg.Precision.valid then cfg.Precision else c.Precision := by
  simp [Config.Apply, apply_ite Config.Precision]

lemma Apply_TagsAsFields (c cfg : Config) :
    (c.Apply cfg).TagsAsFields =
      if cfg.TagsAsFields.length > 0 then cfg.TagsAsFields else c.TagsAsFields := by
  simp [Config.Apply, apply_ite Config.TagsAsFields]

lemma Apply_EnableUniqueTag (c cfg : Config) :
    (c.Apply cfg).EnableUniqueTag =
      if cfg.EnableUniqueTag.valid then cfg.EnableUniqueTag else c.EnableUniqueTag := by
  simp [Config.Apply, apply_ite Config.EnableUniqueTag]

lemma Apply_UniqueTagName (c cfg : Config) :
    (c.Apply cfg).UniqueTagName =
      if cfg.UniqueTagName.valid then cfg.UniqueTagName else c.UniqueTagName := by
  simp [Config.Apply, apply_ite Config.UniqueTagName]

/-! ## Lemmas about tag-to-field promotion -/

/-- A key absent from the tag map is untouched by the promotion pass:
it never appears in the tags, and its binding in the values map is
whatever it was before. -/
lemma extract_absent (fieldKinds : List (String × FieldKind)) (tags : List (String × String))
    (values : List (String × FieldValue)) (name : String)
    (h : lookupA name tags = none) :
    lookupA name (extractTagsToValues fieldKinds tags values).1 = none ∧
    lookupA name (extractTagsToValues fieldKinds tags values).2 = lookupA name values := by
  induction fieldKinds generalizing tags values with
  | nil => simpa [extractTagsToValues] using h
  | cons p rest ih =>
    obtain ⟨t, k⟩ := p
    by_cases ht : t = name
    · subst ht
      simp only [extractTagsToValues, h]
      exact ih tags values h
    · simp only [extractTagsToValues]
      cases hv : lookupA t tags with
      | none => exact ih tags values h
      | some val =>
        have hne : name ≠ t := fun hn => ht hn.symm
        obtain ⟨h1, h2⟩ := ih (eraseA t tags)
          (insertA t ((parseAsKind k val).getD (FieldValue.str val)) values)
          (by rw [lookupA_erase_ne hne]; exact h)
        exact ⟨h1, by rw [h2, lookupA_insert_ne hne]⟩

/-! ## C3: tag-to-field promotion -/

/-- C3: for every tag map and every tag name in the field-kind table
whose value is present, `extractTagsToValues` stores under the same
name in the values map the value parsed to the declared kind — or the
raw string when parsing fails — and deletes the key from the tag map.
(`extractTagsToValues` is a total function: no error is surfaced.) -/
theorem C3_tag_promotion (fieldKinds : List (String × FieldKind))
    (tags : List (String × String)) (values : List (String × FieldValue))
    (name : String) (kind : FieldKind) (val : String)
    (hk : lookupA name fieldKinds = some kind)
    (ht : lookupA name tags = some val) :
    lookupA name (extractTagsToValues fieldKinds tags values).2
      = some ((parseAsKind kind val).getD (FieldValue.str val)) ∧
    lookupA name (extractTagsToValues fieldKinds tags values).1 = none := by
  induction fieldKinds generalizing tags values with
  | nil => exact absurd hk (by simp [lookupA])
  | cons p rest ih =>
    obtain ⟨t, k0⟩ := p
    by_cases hname : name = t
    · subst hname
      have hk0 : k0 = kind := by
        simpa [lookupA] using hk
      subst hk0
      have habs := extract_absent rest (eraseA name tags)
        (insertA name ((parseAsKind k0 val).getD (FieldValue.str val)) values) name
        (lookupA_erase_self name tags)
      constructor
      · show lookupA name (match lookupA name tags with
          | none => extractTagsToValues rest tags values
          | some v =>
            extractTagsToValues rest (eraseA name tags)
              (insertA name ((parseAsKind k0 v).getD (FieldValue.str v)) values)).2 = _
        rw [ht]
        rw [habs.2, lookupA_insert_self]
      · show lookupA name (match lookupA name tags with
          | none => extractTagsToValues rest tags values
          | some v =>
            extractTagsToValues rest (eraseA name tags)
              (insertA name ((parseAsKind k0 v).getD (FieldValue.str v)) values)).1 = none
        rw [ht]
        exact habs.1
    · have hk' : lookupA name rest = some kind := by
        simpa [lookupA, hname] using hk
      cases hv : lookupA t tags with
      | none =>
        have := ih tags values hk' ht
        constructor
        · show lookupA name (match lookupA t tags with
            | none => extractTagsToValues rest tags values
            | some v =>
              extractTagsToValues rest (eraseA t tags)
                (insertA t ((parseAsKind k0 v).getD (FieldValue.str v)) values)).2 = _
          rw [hv]
          exact this.1
        · show lookupA name (match lookupA t tags with
            | none => extractTagsToValues rest tags values
            | some v =>
              extractTagsToValues rest (eraseA t tags)
                (insertA t ((parseAsKind k0 v).getD (FieldValue.str v)) values)).1 = none
          rw [hv]
          exact this.2
      | some val0 =>
        have hne : name ≠ t := hname
        have := ih (eraseA t tags)
          (insertA t ((parseAsKind k0 val0).getD (FieldValue.str val0)) values)
          hk' (by rw [lookupA_erase_ne hne]; exact ht)
        constructor
        · show lookupA name (match lookupA t tags with
            | none => extractTagsToValues rest tags values
            | some v =>
              extractTagsToValues rest (eraseA t tags)
                (insertA t ((parseAsKind k0 v).getD (FieldValue.str v)) values)).2 = _
          rw [hv]
          exact this.1
        · show lookupA name (match lookupA t tags with
            | none => extractTagsToValues rest tags values
            | some v =>
              extractTagsToValues rest (eraseA t tags)
                (insertA t ((parseAsKind k0 v).getD (FieldValue.str v)) values)).1 = none
          rw [hv]
          exact this.2

/-- Witness for C3 at the spec's example: a well-formed int tag is
promoted as a parsed int64, a malformed bool tag falls back to the raw
string, and both keys are deleted from the tag map. -/
theorem C3_witness :
    lookupA "intField"
        (extractTagsToValues [("boolField", FieldKind.Bool), ("intField", FieldKind.Int)]
          [("boolField", "notabool"), ("intField", "12345"), ("other", "x")] []).2
      = some (FieldValue.int64 12345) ∧
    lookupA "intField"
        (extractTagsToValues [("boolField", FieldKind.Bool), ("intField", FieldKind.Int)]
          [("boolField", "notabool"), ("intField", "12345"), ("other", "x")] []).1 = none ∧
    lookupA "boolField"
        (extractTagsToValues [("boolField", FieldKind.Bool), ("intField", FieldKind.Int)]
          [("boolField", "notabool"), ("intField", "12345"), ("other", "x")] []).2
      = some (FieldValue.str "notabool") := by
  have h1 := C3_tag_promotion [("boolField", FieldKind.Bool), ("intField", FieldKind.Int)]
    [("boolField", "notabool"), ("intField", "12345"), ("other", "x")] []
    "intField" FieldKind.Int "12345" (by decide) (by decide)
  have h2 := C3_tag_promotion [("boolField", FieldKind.Bool), ("intField", FieldKind.Int)]
    [("boolField", "notabool"), ("intField", "12345"), ("other", "x")] []
    "boolField" FieldKind.Bool "notabool" (by decide) (by decide)
  refine ⟨?_, h1.2, ?_⟩
  · rw [h1.1]; rfl
  · rw [h2.1]; rfl

/-! ## C1: the order of effects in Stop -/

/-- C1 counterexample: `Stop` (output.go lines 110-117) does *not* wait
for the in-flight writers before closing the TSDB client — the
`o.client.Close()` call precedes `o.wg.Wait()`. -/
theorem C1_counterexample :
    ¬ (stopIdx StopEvent.wgWait < stopIdx StopEvent.clientClose) := by
  decide

/-- C1 amended: `Stop` first stops the periodic flusher (which runs its
terminal flush), then closes the TSDB client, and then waits for the
in-flight writer count to reach zero; the wait does happen before
`Stop` returns, so every accepted sample has been attempted by then,
but the client is closed while writers may still be in flight. -/
theorem C1_stop_order_amended :
    stopIdx StopEvent.flusherStop < stopIdx StopEvent.clientClose ∧
    stopIdx StopEvent.clientClose < stopIdx StopEvent.wgWait ∧
    StopEvent.wgWait ∈ stopEvents := by
  decide

/-! ## C8: the environment overlay reads only the supplied map -/

/-- C8: consolidation is insensitive to the process environment — for a
fixed document, env map and URL the result is identical under any two
process environments, because the envconfig callback
(config.go lines 118-121) reads only the supplied `env` map. -/
theorem C8_env_isolation (procEnv1 procEnv2 : String → Option String)
    (jsonConf : Option Config) (env : String → Option String) (url : String) :
    GetConsolidatedConfig procEnv1 jsonConf env url
      = GetConsolidatedConfig procEnv2 jsonConf env url := rfl

/-! ## C9: bounded concurrency of the dispatcher -/

/-- C9: in every reachable dispatcher state the held permits equal the
pending spawns plus the running writers (each writer holds exactly one
permit from before its spawn until its single release on finish), and
they never exceed the semaphore capacity `N`; in particular at no
instant do more than `N` writers execute their HTTP write, and the
semaphore bounds the pending spawns as well. -/
theorem C9_bounded_concurrency (N : Nat) (s : DState) (h : DReachable N s) :
    s.held = s.pending + s.running ∧ s.held ≤ N ∧
    s.pending + s.running ≤ N ∧ s.running ≤ N := by
  induction h with
  | init => simp
  | step hr hs ih =>
    obtain ⟨hsum, hle, -, -⟩ := ih
    cases hs with
    | flushTick hlt =>
      refine ⟨by simp; omega, by simpa using hlt, ?_, ?_⟩ <;> simp <;> omega
    | writerStart hp =>
      refine ⟨by simp; omega, by simpa using hle, ?_, ?_⟩ <;> simp <;> omega
    | writerFinish hr0 =>
      refine ⟨by simp; omega, by simp; omega, ?_, ?_⟩ <;> simp <;> omega

/-- Witness for C9: after one flush tick and the writer's start, the
reachable state with one running writer satisfies the bound at
capacity 4. -/
theorem C9_witness :
    (⟨1, 0, 1⟩ : DState).running ≤ 4 := by
  have h : DReachable 4 ⟨1, 0, 1⟩ :=
    DReachable.step
      (DReachable.step DReachable.init (DStep.flushTick ⟨0, 0, 0⟩ (by decide)))
      (DStep.writerStart ⟨1, 1, 0⟩ (by decide))
  exact (C9_bounded_concurrency 4 ⟨1, 0, 1⟩ h).2.2.2

/-! ## Lemmas about makeFieldKinds -/

/-- The accumulator only grows: a successful run extends it. -/
lemma mfkAux_extends (l : List String) :
    ∀ acc m, makeFieldKindsAux acc l = .ok m → ∃ ext, m = acc ++ ext := by
  induction l with
  | nil =>
    intro acc m h
    simp only [makeFieldKindsAux, Except.ok.injEq] at h
    exact ⟨[], by rw [← h, List.append_nil]⟩
  | cons tag rest ih =>
    intro acc m h
    rcases hE : entryNameKind tag with ⟨n, t⟩
    by_cases hd : (lookupA n acc).isSome
    · exfalso
      simp [makeFieldKindsAux, hE, checkDuplicatedTypeDefinitions, hd] at h
    · cases hk : kindOfString t with
      | none =>
        exfalso
        simp [makeFieldKindsAux, hE, checkDuplicatedTypeDefinitions, hd, hk] at h
      | some k =>
        have h' : makeFieldKindsAux (acc ++ [(n, k)]) rest = .ok m := by
          simpa [makeFieldKindsAux, hE, checkDuplicatedTypeDefinitions, hd, hk] using h
        obtain ⟨ext, hm⟩ := ih (acc ++ [(n, k)]) m h'
        exact ⟨(n, k) :: ext, by simp [hm]⟩

/-- On success, each directive's name is bound in the table to the kind
its type component denotes. -/
lemma mfkAux_ok_lookup (l : List String) :
    ∀ acc m, makeFieldKindsAux acc l = .ok m →
      ∀ s ∈ l, lookupA (entryNameKind s).1 m = kindOfString (entryNameKind s).2 := by
  induction l with
  | nil =>
    intro acc m _ s hs
    exact absurd hs (List.not_mem_nil s)
  | cons tag rest ih =>
    intro acc m h s hs
    rcases hE : entryNameKind tag with ⟨n, t⟩
    by_cases hd : (lookupA n acc).isSome
    · exfalso
      simp [makeFieldKindsAux, hE, checkDuplicatedTypeDefinitions, hd] at h
    · cases hk : kindOfString t with
      | none =>
        exfalso
        simp [makeFieldKindsAux, hE, checkDuplicatedTypeDefinitions, hd, hk] at h
      | some k =>
        have h' : makeFieldKindsAux (acc ++ [(n, k)]) rest = .ok m := by
          simpa [makeFieldKindsAux, hE, checkDuplicatedTypeDefinitions, hd, hk] using h
        rcases List.mem_cons.mp hs with hstag | hsrest
        · subst hstag
          rw [hE, hk]
          obtain ⟨ext, hm⟩ := mfkAux_extends rest (acc ++ [(n, k)]) m h'
          rw [hm, List.append_assoc, lookupA_append]
          rw [Option.not_isSome_iff_eq_none.mp hd]
          simp [lookupA_append, lookupA]
        · exact ih (acc ++ [(n, k)]) m h' s hsrest

/-- On success, the directive names are pairwise distinct and none of
them was already bound in the starting accumulator. -/
lemma mfkAux_ok_names (l : List String) :
    ∀ acc m, makeFieldKindsAux acc l = .ok m →
      (l.map fun s => (entryNameKind s).1).Nodup ∧
      ∀ s ∈ l, lookupA (entryNameKind s).1 acc = none := by
  induction l with
  | nil =>
    intro acc m _
    exact ⟨List.nodup_nil, fun s hs => absurd hs (List.not_mem_nil s)⟩
  | cons tag rest ih =>
    intro acc m h
    rcases hE : entryNameKind tag with ⟨n, t⟩
    by_cases hd : (lookupA n acc).isSome
    · exfalso
      simp [makeFieldKindsAux, hE, checkDuplicatedTypeDefinitions, hd] at h
    · cases hk : kindOfString t with
      | none =>
        exfalso
        simp [makeFieldKindsAux, hE, checkDuplicatedTypeDefinitions, hd, hk] at h
      | some k =>
        have h' : makeFieldKindsAux (acc ++ [(n, k)]) rest = .ok m := by
          simpa [makeFieldKindsAux, hE, checkDuplicatedTypeDefinitions, hd, hk] using h
        obtain ⟨hnd, habs⟩ := ih (acc ++ [(n, k)]) m h'
        have hsplit : ∀ s ∈ rest, lookupA (entryNameKind s).1 acc = none ∧
            (entryNameKind s).1 ≠ n := by
          intro s hs
          have := habs s hs
          rw [lookupA_append] at this
          rcases hcase : lookupA (entryNameKind s).1 acc with _ | v
          · rw [hcase] at this
            refine ⟨rfl, fun hcontra => ?_⟩
            rw [hcontra] at this
            simp [lookupA] at this
          · rw [hcase] at this
            simp at this
        constructor
        · rw [List.map_cons, List.nodup_cons]
          refine ⟨fun hmem => ?_, hnd⟩
          obtain ⟨s, hs, hname⟩ := List.mem_map.mp hmem
          rw [hE] at hname
          exact (hsplit s hs).2 hname
        · intro s hs
          rcases List.mem_cons.mp hs with hstag | hsrest
          · subst hstag
            rw [hE]
            exact Option.not_isSome_iff_eq_none.mp hd
          · exact (hsplit s hsrest).1

/-- A directive whose type component is unrecognized forces an error. -/
lemma mfkAux_invalid (l : List String) :
    ∀ acc s, s ∈ l → kindOfString (entryNameKind s).2 = none →
      ∃ e, makeFieldKindsAux acc l = .error e := by
  induction l with
  | nil =>
    intro acc s hs _
    exact absurd hs (List.not_mem_nil s)
  | cons tag rest ih =>
    intro acc s hs hbad
    rcases hE : entryNameKind tag with ⟨n, t⟩
    by_cases hd : (lookupA n acc).isSome
    · refine ⟨"a tag name (" ++ n ++ ") shows up more than once in InfluxDB field type configurations", ?_⟩
      simp [makeFieldKindsAux, hE, checkDuplicatedTypeDefinitions, hd]
    · cases hk : kindOfString t with
      | none =>
        refine ⟨"an invalid type (" ++ t ++ ") is specified for an InfluxDB field (" ++ n ++ ")", ?_⟩
        simp [makeFieldKindsAux, hE, checkDuplicatedTypeDefinitions, hd, hk]
      | some k =>
        rcases List.mem_cons.mp hs with hstag | hsrest
        · exfalso
          subst hstag
          rw [hE] at hbad
          simp only at hbad
          rw [hbad] at hk
          exact Option.noConfusion hk
        · obtain ⟨e, he⟩ := ih (acc ++ [(n, k)]) s hsrest hbad
          refine ⟨e, ?_⟩
          simpa [makeFieldKindsAux, hE, checkDuplicatedTypeDefinitions, hd, hk] using he

/-- Every error message `makeFieldKinds` can produce starts with the
character `a` (either "a tag name (…" or "an invalid type (…"). -/
lemma mfkAux_error_head (l : List String) :
    ∀ acc e, makeFieldKindsAux acc l = .error e → e.data.head? = some 'a' := by
  induction l with
  | nil =>
    intro acc e h
    simp [makeFieldKindsAux] at h
  | cons tag rest ih =>
    intro acc e h
    rcases hE : entryNameKind tag with ⟨n, t⟩
    by_cases hd : (lookupA n acc).isSome
    · have : e = "a tag name (" ++ n ++ ") shows up more than once in InfluxDB field type configurations" := by
        have hh := h
        simp [makeFieldKindsAux, hE, checkDuplicatedTypeDefinitions, hd] at hh
        exact hh.symm
      rw [this]
      rfl
    · cases hk : kindOfString t with
      | none =>
        have : e = "an invalid type (" ++ t ++ ") is specified for an InfluxDB field (" ++ n ++ ")" := by
          have hh := h
          simp [makeFieldKindsAux, hE, checkDuplicatedTypeDefinitions, hd, hk] at hh
          exact hh.symm
        rw [this]
        rfl
      | some k =>
        have h' : makeFieldKindsAux (acc ++ [(n, k)]) rest = .error e := by
          simpa [makeFieldKindsAux, hE, checkDuplicatedTypeDefinitions, hd, hk] using h
        exact ih (acc ++ [(n, k)]) e h'

/-! ## C4: building the field-kind table -/

/-- C4: on success the table binds each directive's name (the part
before the first colon, the whole entry when there is none, e.g.
`"iter;bool"`) to the kind its type component denotes, with a missing
kind defaulting to `string`; a directive with any other kind string
(case-sensitively) yields an error, and a name appearing in two
directives yields an error. -/
theorem C4_field_kind_table :
    (∀ (l : List String) m, makeFieldKinds l = .ok m →
      ∀ s ∈ l, lookupA (entryNameKind s).1 m = kindOfString (entryNameKind s).2) ∧
    (∀ (l : List String) s, s ∈ l → kindOfString (entryNameKind s).2 = none →
      ∃ e, makeFieldKinds l = .error e) ∧
    (∀ l : List String, ¬ (l.map fun s => (entryNameKind s).1).Nodup →
      ∃ e, makeFieldKinds l = .error e) ∧
    (∀ s : String, splitFirst ':' s.data = none → entryNameKind s = (s, "string")) ∧
    entryNameKind "iter;bool" = ("iter;bool", "string") ∧
    kindOfString "string" = some FieldKind.String ∧
    kindOfString "bool" = some FieldKind.Bool ∧
    kindOfString "float" = some FieldKind.Float ∧
    kindOfString "int" = some FieldKind.Int ∧
    kindOfString "Bool" = none ∧ kindOfString "INT" = none := by
  refine ⟨?_, ?_, ?_, ?_, by decide, rfl, rfl, rfl, rfl, rfl, rfl⟩
  · intro l m h s hs
    exact mfkAux_ok_lookup l [] m h s hs
  · intro l s hs hbad
    exact mfkAux_invalid l [] s hs hbad
  case refine_4 =>
    intro s h
    simp [entryNameKind, h]
  · intro l hdup
    cases hres : makeFieldKinds l with
    | ok m => exact absurd (mfkAux_ok_names l [] m hres).1 hdup
    | error e => exact ⟨e, rfl⟩

/-- Witness for C4 at the spec's examples: the four-directive list
builds the expected table, and a duplicated name is rejected. -/
theorem C4_witness :
    lookupA "boolField"
        [("vu", FieldKind.String), ("boolField", FieldKind.Bool),
          ("floatField", FieldKind.Float), ("intField", FieldKind.Int)]
      = some FieldKind.Bool ∧
    (∃ e, makeFieldKinds ["boolField:bool", "boolField:float"] = .error e) ∧
    (∃ e, makeFieldKinds ["boolField:book"] = .error e) := by
  refine ⟨?_, ?_, ?_⟩
  · exact C4_field_kind_table.1 ["vu", "boolField:bool", "floatField:float", "intField:int"]
      [("vu", FieldKind.String), ("boolField", FieldKind.Bool),
        ("floatField", FieldKind.Float), ("intField", FieldKind.Int)]
      rfl "boolField:bool" (by decide)
  · exact C4_field_kind_table.2.2.1 ["boolField:bool", "boolField:float"] (by decide)
  · exact C4_field_kind_table.2.1 ["boolField:book"] "boolField:book" (by decide) (by decide)

/-! ## C2: constructor validation -/

/-- C2 counterexample (to the claim as stated): a parameter set whose
consolidated config has `concurrent_writes = 0` *and* an empty bucket
makes `New` fail with the Bucket message, which does not mention
"ConcurrentWrites" — the bucket check (output.go line 62) runs first. -/
theorem C2_counterexample :
    (GetConsolidatedConfig (fun _ => none)
        (some { emptyConfig with ConcurrentWrites := ⟨0, true⟩ })
        (fun _ => none) "").toOption.map
          (fun c => (c.Bucket.string, c.ConcurrentWrites.int64)) = some ("", 0) ∧
    NewValidated (fun _ => none) (some { emptyConfig with ConcurrentWrites := ⟨0, true⟩ })
      (fun _ => none) "" = .error "the Bucket option is required" ∧
    strMentions "the Bucket option is required" "ConcurrentWrites" = false := by
  exact ⟨rfl, rfl, by decide⟩

/-- Unfolding of `NewValidated` once consolidation has succeeded. -/
lemma NewValidated_ok (procEnv : String → Option String) (jsonConf : Option Config)
    (env : String → Option String) (url : String) (conf : Config)
    (hc : GetConsolidatedConfig procEnv jsonConf env url = .ok conf) :
    NewValidated procEnv jsonConf env url =
      if conf.Bucket.string = "" then .error "the Bucket option is required"
      else if conf.ConcurrentWrites.int64 ≤ 0 then
        .error "the ConcurrentWrites option must be a positive number"
      else
        match makeFieldKinds conf.TagsAsFields with
        | .error e => .error e
        | .ok fldKinds => .ok (conf, fldKinds) := by
  unfold NewValidated
  rw [hc]

/-- C2 amended: `New` fails with the Bucket-mentioning error whenever
the consolidated bucket is empty; it fails with the
ConcurrentWrites-mentioning error whenever the bucket is non-empty and
`concurrent_writes ≤ 0` (with an empty bucket the Bucket error is
reported first); with a non-empty bucket and `concurrent_writes ≥ 1`
neither of these two errors is raised. -/
theorem C2_validation_amended (procEnv : String → Option String) (jsonConf : Option Config)
    (env : String → Option String) (url : String) (conf : Config)
    (hc : GetConsolidatedConfig procEnv jsonConf env url = .ok conf) :
    (conf.Bucket.string = "" →
      NewValidated procEnv jsonConf env url = .error "the Bucket option is required" ∧
      strMentions "the Bucket option is required" "Bucket" = true) ∧
    (conf.Bucket.string ≠ "" → conf.ConcurrentWrites.int64 ≤ 0 →
      NewValidated procEnv jsonConf env url
          = .error "the ConcurrentWrites option must be a positive number" ∧
      strMentions "the ConcurrentWrites option must be a positive number"
        "ConcurrentWrites" = true) ∧
    (conf.Bucket.string ≠ "" → 1 ≤ conf.ConcurrentWrites.int64 →
      NewValidated procEnv jsonConf env url ≠ .error "the Bucket option is required" ∧
      NewValidated procEnv jsonConf env url
          ≠ .error "the ConcurrentWrites option must be a positive number") := by
  refine ⟨?_, ?_, ?_⟩
  · intro hb
    refine ⟨?_, by decide⟩
    rw [NewValidated_ok procEnv jsonConf env url conf hc, if_pos hb]
  · intro hb hcw
    refine ⟨?_, by decide⟩
    rw [NewValidated_ok procEnv jsonConf env url conf hc, if_neg hb, if_pos hcw]
  · intro hb hcw
    have hres : NewValidated procEnv jsonConf env url =
        match makeFieldKinds conf.TagsAsFields with
        | .error e => .error e
        | .ok fldKinds => .ok (conf, fldKinds) := by
      rw [NewValidated_ok procEnv jsonConf env url conf hc, if_neg hb, if_neg (by omega)]
    cases hmk : makeFieldKinds conf.TagsAsFields with
    | ok fk =>
      rw [hmk] at hres
      exact ⟨by rw [hres]; exact fun h => Except.noConfusion h,
        by rw [hres]; exact fun h => Except.noConfusion h⟩
    | error e =>
      rw [hmk] at hres
      have hhead : e.data.head? = some 'a' := mfkAux_error_head _ [] e hmk
      constructor
      · rw [hres]
        intro h
        injection h with he
        rw [he] at hhead
        exact absurd hhead (by decide)
      · rw [hres]
        intro h
        injection h with he
        rw [he] at hhead
        exact absurd hhead (by decide)

/-- Witness for the amended C2: a consolidated config with bucket "b"
and `concurrent_writes = -2` is rejected with the
ConcurrentWrites-mentioning message. -/
theorem C2_witness :
    NewValidated (fun _ => none)
        (some { emptyConfig with Bucket := ⟨"b", true⟩, ConcurrentWrites := ⟨-2, true⟩ })
        (fun _ => none) ""
      = .error "the ConcurrentWrites option must be a positive number" ∧
    strMentions "the ConcurrentWrites option must be a positive number"
      "ConcurrentWrites" = true := by
  have h := C2_validation_amended (fun _ => none)
    (some { emptyConfig with Bucket := ⟨"b", true⟩, ConcurrentWrites := ⟨-2, true⟩ })
    (fun _ => none) ""
    { NewConfig with Bucket := ⟨"b", true⟩, ConcurrentWrites := ⟨-2, true⟩ }
    rfl
  exact h.2.1 (by decide) (by decide)

/-! ## Unfolding consolidation after a successful env overlay -/

/-- The defaults overlaid with the parsed document, when one is given
(the first two layers of `GetConsolidatedConfig`). -/
def docApplied (jsonConf : Option Config) : Config :=
  match jsonConf with
  | some jc => NewConfig.Apply jc
  | none => NewConfig

/-- `GetConsolidatedConfig` once the env overlay parsed: defaults, then
document, then environment, then (for a non-empty argument) URL. -/
lemma GetConsolidatedConfig_ok (procEnv : String → Option String) (jsonConf : Option Config)
    (env : String → Option String) (url : String) (envConf : Config)
    (henv : envconfigProcess (fun key => env key) = .ok envConf) :
    GetConsolidatedConfig procEnv jsonConf env url =
      if url = "" then .ok ((docApplied jsonConf).Apply envConf)
      else
        match parseURL url with
        | .error e => .error e
        | .ok urlConf => .ok (((docApplied jsonConf).Apply envConf).Apply urlConf) := by
  unfold GetConsolidatedConfig docApplied
  rw [henv]

/-! ## C10: an empty TagsAsFields overlay is the identity -/

/-- A non-empty promotion list survives any overlay. -/
lemma Apply_TagsAsFields_ne_nil (c o : Config) (hc : c.TagsAsFields ≠ []) :
    (c.Apply o).TagsAsFields ≠ [] := by
  rw [Apply_TagsAsFields]
  by_cases h : o.TagsAsFields.length > 0
  · rw [if_pos h]
    exact List.ne_nil_of_length_pos h
  · rw [if_neg h]
    exact hc

/-- C10: overlaying a config whose TagsAsFields list is empty leaves
the accumulator's list unchanged (config.go lines 59-61), so no
document, environment map, or URL argument can make the consolidated
promotion list empty — the default (or an earlier layer's non-empty
list) always remains. -/
theorem C10_tags_as_fields_identity :
    (∀ c o : Config, o.TagsAsFields = [] →
      (c.Apply o).TagsAsFields = c.TagsAsFields) ∧
    (∀ (procEnv : String → Option String) (jsonConf : Option Config)
        (env : String → Option String) (url : String) (r : Config),
      GetConsolidatedConfig procEnv jsonConf env url = .ok r → r.TagsAsFields ≠ []) := by
  constructor
  · intro c o ho
    rw [Apply_TagsAsFields, ho]
    simp
  · intro procEnv jsonConf env url r hr
    have hbase : (docApplied jsonConf).TagsAsFields ≠ [] := by
      cases jsonConf with
      | none => decide
      | some jc => exact Apply_TagsAsFields_ne_nil NewConfig jc (by decide)
    cases henv : envconfigProcess fun key => env key with
    | error e =>
      unfold GetConsolidatedConfig at hr
      rw [henv] at hr
      exact absurd hr (fun h => Except.noConfusion h)
    | ok envConf =>
      rw [GetConsolidatedConfig_ok procEnv jsonConf env url envConf henv] at hr
      by_cases hurl : url = ""
      · rw [if_pos hurl] at hr
        injection hr with hr'
        rw [← hr']
        exact Apply_TagsAsFields_ne_nil _ envConf hbase
      · rw [if_neg hurl] at hr
        cases hu : parseURL url with
        | error e =>
          rw [hu] at hr
          exact absurd hr (fun h => Except.noConfusion h)
        | ok urlConf =>
          rw [hu] at hr
          injection hr with hr'
          rw [← hr']
          exact Apply_TagsAsFields_ne_nil _ urlConf
            (Apply_TagsAsFields_ne_nil _ envConf hbase)

/-- Witness for C10: overlaying the all-unset zero config leaves the
default promotion list, and a consolidation with no inputs yields a
non-empty list. -/
theorem C10_witness :
    (NewConfig.Apply emptyConfig).TagsAsFields = NewConfig.TagsAsFields ∧
    NewConfig.TagsAsFields ≠ [] := by
  refine ⟨C10_tags_as_fields_identity.1 NewConfig emptyConfig rfl, ?_⟩
  exact C10_tags_as_fields_identity.2 (fun _ => none) none (fun _ => none) "" NewConfig rfl

/-! ## C5: config consolidation -/

/-- C5: consolidation starts from the defaults, overlays the parsed
document, then the environment map, then the URL argument; every
overlay replaces exactly the fields it sets (valid fields, and a
non-empty TagsAsFields) and passes unset fields through; in particular
an addr or bucket set by the URL argument wins over the environment
layer. -/
theorem C5_consolidation :
    (NewConfig.Addr = ⟨"http://localhost:8086", false⟩ ∧
      NewConfig.TagsAsFields = ["vu:int", "iter:int", "url"] ∧
      NewConfig.ConcurrentWrites = ⟨4, false⟩ ∧
      NewConfig.PushInterval = ⟨1000000000, false⟩) ∧
    (∀ c o : Config,
      (c.Apply o).Addr = (if o.Addr.valid then o.Addr else c.Addr) ∧
      (c.Apply o).Organization
        = (if o.Organization.valid then o.Organization else c.Organization) ∧
      (c.Apply o).Bucket = (if o.Bucket.valid then o.Bucket else c.Bucket) ∧
      (c.Apply o).Token = (if o.Token.valid then o.Token else c.Token) ∧
      (c.Apply o).InsecureSkipTLSVerify = (if o.InsecureSkipTLSVerify.valid
        then o.InsecureSkipTLSVerify else c.InsecureSkipTLSVerify) ∧
      (c.Apply o).PushInterval
        = (if o.PushInterval.valid then o.PushInterval else c.PushInterval) ∧
      (c.Apply o).ConcurrentWrites
        = (if o.ConcurrentWrites.valid then o.ConcurrentWrites else c.ConcurrentWrites) ∧
      (c.Apply o).Precision = (if o.Precision.valid then o.Precision else c.Precision) ∧
      (c.Apply o).TagsAsFields
        = (if o.TagsAsFields.length > 0 then o.TagsAsFields else c.TagsAsFields) ∧
      (c.Apply o).EnableUniqueTag
        = (if o.EnableUniqueTag.valid then o.EnableUniqueTag else c.EnableUniqueTag) ∧
      (c.Apply o).UniqueTagName
        = (if o.UniqueTagName.valid then o.UniqueTagName else c.UniqueTagName)) ∧
    (∀ (procEnv : String → Option String) (jsonConf : Option Config)
        (env : String → Option String) (url : String) (envConf urlConf : Config),
      envconfigProcess (fun key => env key) = .ok envConf →
      url ≠ "" → parseURL url = .ok urlConf →
      GetConsolidatedConfig procEnv jsonConf env url
        = .ok (((docApplied jsonConf).Apply envConf).Apply urlConf)) ∧
    docApplied none = NewConfig ∧
    (∀ jc, docApplied (some jc) = NewConfig.Apply jc) ∧
    (∀ (procEnv : String → Option String) (jsonConf : Option Config)
        (env : String → Option String) (url : String) (r urlConf : Config),
      GetConsolidatedConfig procEnv jsonConf env url = .ok r →
      url ≠ "" → parseURL url = .ok urlConf →
      (urlConf.Addr.valid = true → r.Addr = urlConf.Addr) ∧
      (urlConf.Bucket.valid = true → r.Bucket = urlConf.Bucket)) := by
  refine ⟨⟨rfl, rfl, rfl, rfl⟩, ?_, ?_, rfl, fun jc => rfl, ?_⟩
  · intro c o
    exact ⟨Apply_Addr c o, Apply_Organization c o, Apply_Bucket c o, Apply_Token c o,
      Apply_Insecure c o, Apply_PushInterval c o, Apply_ConcurrentWrites c o,
      Apply_Precision c o, Apply_TagsAsFields c o, Apply_EnableUniqueTag c o,
      Apply_UniqueTagName c o⟩
  · intro procEnv jsonConf env url envConf urlConf henv hurl hu
    rw [GetConsolidatedConfig_ok procEnv jsonConf env url envConf henv, if_neg hurl, hu]
  · intro procEnv jsonConf env url r urlConf hr hurl hu
    cases henv : envconfigProcess fun key => env key with
    | error e =>
      exfalso
      unfold GetConsolidatedConfig at hr
      rw [henv] at hr
      exact Except.noConfusion hr
    | ok envConf =>
      rw [GetConsolidatedConfig_ok procEnv jsonConf env url envConf henv, if_neg hurl, hu] at hr
      injection hr with hr'
      constructor
      · intro hv
        rw [← hr', Apply_Addr, if_pos hv]
      · intro hv
        rw [← hr', Apply_Bucket, if_pos hv]

/-- Witness for C5, replicating the spec's precedence test: with the
environment map setting addr/bucket (and 999s intervals) and the URL
argument `http://test-url-override/test-bucket-override`, the URL's
addr and bucket win. -/
theorem C5_witness :
    (GetConsolidatedConfig (fun _ => none) none
      (fun k =>
        if k = "K6_INFLUXDB_ADDR" then some "http://test-url"
        else if k = "K6_INFLUXDB_ORGANIZATION" then some "test-org"
        else if k = "K6_INFLUXDB_BUCKET" then some "test-bucket"
        else if k = "K6_INFLUXDB_TOKEN" then some "test-token"
        else if k = "K6_INFLUXDB_INSECURE" then some "true"
        else if k = "K6_INFLUXDB_PUSH_INTERVAL" then some "999s"
        else if k = "K6_INFLUXDB_CONCURRENT_WRITES" then some "999"
        else if k = "K6_INFLUXDB_PRECISION" then some "999s"
        else if k = "K6_INFLUXDB_TAGS_AS_FIELDS" then some "test-tag-1,test-tag-2,test-tag-3"
        else none)
      "http://test-url-override/test-bucket-override"
      = .ok { Addr := ⟨"http://test-url-override", true⟩
              Organization := ⟨"test-org", true⟩
              Bucket := ⟨"test-bucket-override", true⟩
              Token := ⟨"test-token", true⟩
              InsecureSkipTLSVerify := ⟨true, true⟩
              PushInterval := ⟨999000000000, true⟩
              ConcurrentWrites := ⟨999, true⟩
              Precision := ⟨999000000000, true⟩
              TagsAsFields := ["test-tag-1", "test-tag-2", "test-tag-3"]
              EnableUniqueTag := ⟨false, false⟩
              UniqueTagName := ⟨"uniqueId", false⟩ }) ∧
    ({ Addr := ⟨"http://test-url-override", true⟩
       Organization := ⟨"test-org", true⟩
       Bucket := ⟨"test-bucket-override", true⟩
       Token := ⟨"test-token", true⟩
       InsecureSkipTLSVerify := ⟨true, true⟩
       PushInterval := ⟨999000000000, true⟩
       ConcurrentWrites := ⟨999, true⟩
       Precision := ⟨999000000000, true⟩
       TagsAsFields := ["test-tag-1", "test-tag-2", "test-tag-3"]
       EnableUniqueTag := ⟨false, false⟩
       UniqueTagName := ⟨"uniqueId", false⟩ } : Config).Addr
      = ⟨"http://test-url-override", true⟩ := by
  constructor
  · have h := C5_consolidation.2.2.1 (fun _ => none) none
      (fun k =>
        if k = "K6_INFLUXDB_ADDR" then some "http://test-url"
        else if k = "K6_INFLUXDB_ORGANIZATION" then some "test-org"
        else if k = "K6_INFLUXDB_BUCKET" then some "test-bucket"
        else if k = "K6_INFLUXDB_TOKEN" then some "test-token"
        else if k = "K6_INFLUXDB_INSECURE" then some "true"
        else if k = "K6_INFLUXDB_PUSH_INTERVAL" then some "999s"
        else if k = "K6_INFLUXDB_CONCURRENT_WRITES" then some "999"
        else if k = "K6_INFLUXDB_PRECISION" then some "999s"
        else if k = "K6_INFLUXDB_TAGS_AS_FIELDS" then some "test-tag-1,test-tag-2,test-tag-3"
        else none)
      "http://test-url-override/test-bucket-override"
      { emptyConfig with
          Addr := ⟨"http://test-url", true⟩
          Organization := ⟨"test-org", true⟩
          Bucket := ⟨"test-bucket", true⟩
          Token := ⟨"test-token", true⟩
          InsecureSkipTLSVerify := ⟨true, true⟩
          PushInterval := ⟨999000000000, true⟩
          ConcurrentWrites := ⟨999, true⟩
          Precision := ⟨999000000000, true⟩
          TagsAsFields := ["test-tag-1", "test-tag-2", "test-tag-3"] }
      { emptyConfig with
          Addr := ⟨"http://test-url-override", true⟩
          Bucket := ⟨"test-bucket-override", true⟩ }
      rfl (by decide) rfl
    rw [h]
    rfl
  · rfl

/-! ## C6: URL parsing -/

/-- C6: a URL with a host sets `addr = scheme://host`; a URL with a
non-empty path (after removing one leading slash) sets `bucket` to it,
inner slashes preserved; an empty string sets neither — together with
the concrete examples of the spec's test table. -/
theorem C6_url_parsing :
    (∀ text c, parseURL text = .ok c →
      ((goURLParse text).host ≠ "" →
        c.Addr = ⟨(goURLParse text).scheme ++ "://" ++ (goURLParse text).host, true⟩) ∧
      ((goURLParse text).host = "" → c.Addr.valid = false) ∧
      (trimLeadSlash (goURLParse text).path ≠ "" →
        c.Bucket = ⟨trimLeadSlash (goURLParse text).path, true⟩) ∧
      (trimLeadSlash (goURLParse text).path = "" → c.Bucket.valid = false)) ∧
    parseURL "" = .ok emptyConfig ∧
    parseURL "bucketname" = .ok { emptyConfig with Bucket := ⟨"bucketname", true⟩ } ∧
    parseURL "/bucketname" = .ok { emptyConfig with Bucket := ⟨"bucketname", true⟩ } ∧
    parseURL "/dbname/retention"
      = .ok { emptyConfig with Bucket := ⟨"dbname/retention", true⟩ } ∧
    parseURL "http://localhost:8086"
      = .ok { emptyConfig with Addr := ⟨"http://localhost:8086", true⟩ } ∧
    parseURL "http://localhost:8086/bucketname"
      = .ok { emptyConfig with
              Addr := ⟨"http://localhost:8086", true⟩
              Bucket := ⟨"bucketname", true⟩ } := by
  refine ⟨?_, rfl, rfl, rfl, rfl, rfl, rfl⟩
  intro text c hc
  unfold parseURL at hc
  injection hc with hc'
  subst hc'
  by_cases hh : (goURLParse text).host = "" <;>
    by_cases hb : trimLeadSlash (goURLParse text).path = "" <;>
      simp [hh, hb, emptyConfig]

/-- Witness for C6: at `http://localhost:8086/bucketname` the general
rule pins addr to scheme://host and bucket to the trimmed path. -/
theorem C6_witness :
    ({ emptyConfig with
        Addr := ⟨"http://localhost:8086", true⟩
        Bucket := ⟨"bucketname", true⟩ } : Config).Addr
      = ⟨"http://localhost:8086", true⟩ ∧
    ({ emptyConfig with
        Addr := ⟨"http://localhost:8086", true⟩
        Bucket := ⟨"bucketname", true⟩ } : Config).Bucket
      = ⟨"bucketname", true⟩ := by
  have h := C6_url_parsing.1 "http://localhost:8086/bucketname"
    { emptyConfig with
        Addr := ⟨"http://localhost:8086", true⟩
        Bucket := ⟨"bucketname", true⟩ } rfl
  constructor
  · rw [h.1 (by decide)]
    rfl
  · rw [h.2.2.1 (by decide)]
    rfl

/-! ## C7: every point carries the "value" field -/

/-- Unfolding of the sample loop on a cache hit. -/
lemma bfsSamples_cons_hit (fieldKinds : List (String × FieldKind)) (cache : BatchCache)
    (sample : Sample) (rest : List Sample) (ctags : List (String × String))
    (cvalues : List (String × FieldValue))
    (hc : lookupA sample.tagsId cache = some (ctags, cvalues)) :
    bfsSamples fieldKinds cache (sample :: rest) =
      ((bfsSamples fieldKinds cache rest).1,
        (⟨sample.metricName, ctags,
          insertA "value" (FieldValue.float64 sample.value) cvalues,
          sample.time⟩ : Point) :: (bfsSamples fieldKinds cache rest).2) := by
  conv_lhs => rw [bfsSamples]
  rw [hc]

/-- Unfolding of the sample loop on a cache miss. -/
lemma bfsSamples_cons_miss (fieldKinds : List (String × FieldKind)) (cache : BatchCache)
    (sample : Sample) (rest : List Sample)
    (hc : lookupA sample.tagsId cache = none) :
    bfsSamples fieldKinds cache (sample :: rest) =
      ((bfsSamples fieldKinds
          (insertA sample.tagsId
            ((extractTagsToValues fieldKinds sample.tags []).1,
              insertA "value" (FieldValue.float64 sample.value)
                (extractTagsToValues fieldKinds sample.tags []).2) cache) rest).1,
        (⟨sample.metricName, (extractTagsToValues fieldKinds sample.tags []).1,
          insertA "value" (FieldValue.float64 sample.value)
            (extractTagsToValues fieldKinds sample.tags []).2,
          sample.time⟩ : Point)
          :: (bfsSamples fieldKinds
              (insertA sample.tagsId
                ((extractTagsToValues fieldKinds sample.tags []).1,
                  insertA "value" (FieldValue.float64 sample.value)
                    (extractTagsToValues fieldKinds sample.tags []).2) cache) rest).2) := by
  conv_lhs => rw [bfsSamples]
  rw [hc]

/-- Points and samples of one container correspond one to one; each
point's fields map is non-empty and binds `"value"` to its sample's
numeric value. -/
lemma bfsSamples_spec (fieldKinds : List (String × FieldKind)) (samples : List Sample) :
    ∀ cache : BatchCache,
      (bfsSamples fieldKinds cache samples).2.length = samples.length ∧
      ∀ (i : Nat) (sample : Sample), samples[i]? = some sample →
        ∃ p : Point, ((bfsSamples fieldKinds cache samples).2)[i]? = some p ∧
          lookupA "value" p.fields = some (FieldValue.float64 sample.value) ∧
          p.fields ≠ [] := by
  induction samples with
  | nil =>
    intro cache
    refine ⟨rfl, ?_⟩
    intro i sample h
    simp at h
  | cons sample rest ih =>
    intro cache
    cases hc : lookupA sample.tagsId cache with
    | some pr =>
      obtain ⟨ctags, cvalues⟩ := pr
      rw [bfsSamples_cons_hit fieldKinds cache sample rest ctags cvalues hc]
      constructor
      · simpa using (ih cache).1
      · intro i s hi
        cases i with
        | zero =>
          rw [List.getElem?_cons_zero] at hi
          injection hi with hi'
          subst hi'
          refine ⟨_, List.getElem?_cons_zero, ?_, ?_⟩
          · exact lookupA_insert_self "value" _ cvalues
          · simp [insertA]
        | succ n =>
          rw [List.getElem?_cons_succ] at hi
          obtain ⟨p, hp, hv, hne⟩ := (ih cache).2 n s hi
          exact ⟨p, by rw [List.getElem?_cons_succ]; exact hp, hv, hne⟩
    | none =>
      rw [bfsSamples_cons_miss fieldKinds cache sample rest hc]
      constructor
      · simpa using (ih _).1
      · intro i s hi
        cases i with
        | zero =>
          rw [List.getElem?_cons_zero] at hi
          injection hi with hi'
          subst hi'
          refine ⟨_, List.getElem?_cons_zero, ?_, ?_⟩
          · exact lookupA_insert_self "value" _ _
          · simp [insertA]
        | succ n =>
          rw [List.getElem?_cons_succ] at hi
          obtain ⟨p, hp, hv, hne⟩ := (ih _).2 n s hi
          exact ⟨p, by rw [List.getElem?_cons_succ]; exact hp, hv, hne⟩

/-- Unfolding of the container loop. -/
lemma bfsContainers_cons (fieldKinds : List (String × FieldKind)) (cache : BatchCache)
    (container : List Sample) (rest : List (List Sample)) :
    bfsContainers fieldKinds cache (container :: rest) =
      ((bfsContainers fieldKinds (bfsSamples fieldKinds cache container).1 rest).1,
        (bfsSamples fieldKinds cache container).2 ++
          (bfsContainers fieldKinds (bfsSamples fieldKinds cache container).1 rest).2) := rfl

/-- The container loop preserves the per-sample correspondence across
concatenation. -/
lemma bfsContainers_spec (fieldKinds : List (String × FieldKind))
    (containers : List (List Sample)) :
    ∀ cache : BatchCache,
      (bfsContainers fieldKinds cache containers).2.length = containers.flatten.length ∧
      ∀ (i : Nat) (sample : Sample), containers.flatten[i]? = some sample →
        ∃ p : Point, ((bfsContainers fieldKinds cache containers).2)[i]? = some p ∧
          lookupA "value" p.fields = some (FieldValue.float64 sample.value) ∧
          p.fields ≠ [] := by
  induction containers with
  | nil =>
    intro cache
    refine ⟨rfl, ?_⟩
    intro i sample h
    simp at h
  | cons container rest ih =>
    intro cache
    rw [bfsContainers_cons]
    have hA := bfsSamples_spec fieldKinds container cache
    have hB := ih (bfsSamples fieldKinds cache container).1
    constructor
    · simp [List.length_append, hA.1, hB.1]
    · intro i s hi
      rw [List.flatten_cons] at hi
      by_cases hlt : i < container.length
      · rw [List.getElem?_append_left hlt] at hi
        obtain ⟨p, hp, hv, hne⟩ := hA.2 i s hi
        refine ⟨p, ?_, hv, hne⟩
        rw [List.getElem?_append_left (by rw [hA.1]; exact hlt)]
        exact hp
      · have hge : container.length ≤ i := Nat.le_of_not_lt hlt
        rw [List.getElem?_append_right hge] at hi
        obtain ⟨p, hp, hv, hne⟩ := hB.2 (i - container.length) s hi
        refine ⟨p, ?_, hv, hne⟩
        rw [List.getElem?_append_right (by rw [hA.1]; exact hge), hA.1]
        exact hp

/-- C7: for every field-kind table and every batch of sample
containers, `batchFromSamples` emits one point per sample in order, and
every point's fields map is non-empty and contains the reserved key
`"value"` bound to that sample's numeric value. -/
theorem C7_value_field (fieldKinds : List (String × FieldKind))
    (containers : List (List Sample)) :
    (batchFromSamples fieldKinds containers).length = containers.flatten.length ∧
    ∀ (i : Nat) (sample : Sample), containers.flatten[i]? = some sample →
      ∃ p : Point, (batchFromSamples fieldKinds containers)[i]? = some p ∧
        lookupA "value" p.fields = some (FieldValue.float64 sample.value) ∧
        p.fields ≠ [] := by
  unfold batchFromSamples
  exact bfsContainers_spec fieldKinds containers []

/-- Witness for C7: two samples sharing a tag-set identity produce two
points whose fields bind "value" to 2 and 3 respectively. -/
theorem C7_witness :
    ∃ p : Point, (batchFromSamples [("vu", FieldKind.Int)]
        [[⟨"m", 5, 2, 1, [("vu", "21"), ("x", "y")]⟩,
          ⟨"m", 6, 3, 1, [("vu", "21"), ("x", "y")]⟩]])[1]? = some p ∧
      lookupA "value" p.fields = some (FieldValue.float64 3) ∧
      p.fields ≠ [] := by
  exact (C7_value_field [("vu", FieldKind.Int)]
    [[⟨"m", 5, 2, 1, [("vu", "21"), ("x", "y")]⟩,
      ⟨"m", 6, 3, 1, [("vu", "21"), ("x", "y")]⟩]]).2 1
    ⟨"m", 6, 3, 1, [("vu", "21"), ("x", "y")]⟩ rfl

end XK6
